import Mathlib

/-!
Verification of the DMX bin-construction and summarization core of
`src/pint/utils.py` (the `dmxrange` class, the two segmenters
`dmx_ranges_old` / `dmx_ranges`, and the post-fit summarizer `dmxparse`).

Times (MJDs, days) and frequencies (MHz) are embedded as exact rationals
(`ℚ`); the source's floating-point arithmetic is modelled exactly.
Python exceptions (IndexError, ValueError, RuntimeError) are modelled by
`Option`-valued functions returning `none`.
-/

namespace PintUtils

/-- One observation: a time (MJD, in days) and a radio frequency (MHz).
Mirrors one row of a TOAs table (`toas.get_mjds()` and `toas.table["freq"]`). -/
structure TOA where
  mjd : ℚ
  freq : ℚ
deriving DecidableEq, Repr

instance : Inhabited TOA := ⟨⟨0, 0⟩⟩

/-- Minimum of a list of rationals; the source's Python `min` is only ever
applied to non-empty lists, so the `[]` branch is junk (never reached). -/
def listMin : List ℚ → ℚ
  | [] => 0
  | x :: xs => xs.foldl min x

/-- Maximum of a list of rationals; the `[]` branch is junk (never reached). -/
def listMax : List ℚ → ℚ
  | [] => 0
  | x :: xs => xs.foldl max x

/-- The `dmxrange` class: low-band member times, high-band member times, and
the derived `[min, max]` extent. -/
structure dmxrange where
  los : List ℚ
  his : List ℚ
  min : ℚ
  max : ℚ
deriving DecidableEq, Repr

instance : Inhabited dmxrange := ⟨⟨[], [], 0, 0⟩⟩

/-- `dmxrange.__init__`: `self.min = min(lofreqs + hifreqs) - 0.001 * u.d`,
`self.max = max(lofreqs + hifreqs) + 0.001 * u.d`. -/
def dmxrange.init (lofreqs hifreqs : List ℚ) : dmxrange :=
  { los := lofreqs
    his := hifreqs
    min := listMin (lofreqs ++ hifreqs) - 1/1000
    max := listMax (lofreqs ++ hifreqs) + 1/1000 }

/-! ## Windowed segmenter (`dmx_ranges`) -/

/-- The TOAs still to process: `MJDs > prevbinR2` (array order preserved). -/
def winRemaining (toas : List TOA) (prev : ℚ) : List TOA :=
  toas.filter (fun x => decide (prev < x.mjd))

/-- `startMJD = MJDs[MJDs > prevbinR2][0]`: the first remaining time in
array order (`none` when nothing remains, which is the loop's exit test). -/
def winStart (toas : List TOA) (prev : ℚ) : Option ℚ :=
  (winRemaining toas prev).head?.map TOA.mjd

/-- The batch for one iteration:
`binidx = np.logical_and(MJDs > prevbinR2, MJDs <= startMJD + binwidth)`. -/
def winBatch (toas : List TOA) (prev width start : ℚ) : List TOA :=
  toas.filter (fun x => decide (prev < x.mjd) && decide (x.mjd ≤ start + width))

/-- One loop iteration accepts its batch exactly when
`np.any(binfreqs < divide_freq) and np.any(binfreqs > divide_freq)`
(note: strictly below and strictly above the divide). -/
def winAccept (divide : ℚ) (batch : List TOA) : Bool :=
  batch.any (fun x => decide (x.freq < divide)) &&
    batch.any (fun x => decide (x.freq > divide))

/-- The bin built from an accepted batch: `dmxrange(list(loMJDs), list(hiMJDs))`
with `loMJDs = binMJDs[binfreqs < divide_freq]`,
`hiMJDs = binMJDs[binfreqs >= divide_freq]`. -/
def winBin (divide : ℚ) (batch : List TOA) : dmxrange :=
  dmxrange.init
    ((batch.filter (fun x => decide (x.freq < divide))).map TOA.mjd)
    ((batch.filter (fun x => decide (x.freq ≥ divide))).map TOA.mjd)

/-- The `while True` loop of `dmx_ranges`, with explicit fuel (each
iteration consumes at least the batch's first element, so fuel
`toas.length + 1` always reaches the `none` exit). -/
def winLoop (divide width : ℚ) (toas : List TOA) :
    ℕ → ℚ → List dmxrange → List dmxrange
  | 0, _, acc => acc
  | fuel + 1, prev, acc =>
    match winStart toas prev with
    | none => acc
    | some start =>
      let batch := winBatch toas prev width start
      if batch.isEmpty then acc
      else
        winLoop divide width toas fuel (listMax (batch.map TOA.mjd))
          (if winAccept divide batch then acc ++ [winBin divide batch] else acc)

/-- `dmx_ranges`: returns `(mask, bins)`.  On an empty TOA list the source
evaluates `MJDs[0]` and raises `IndexError`, modelled as `none`.
The mask marks TOA `i` true iff `DMX.min <= MJDs[i] <= DMX.max` for some bin. -/
def dmx_ranges (toas : List TOA) (divide width : ℚ) :
    Option (List Bool × List dmxrange) :=
  match toas with
  | [] => none
  | t :: _ =>
    let bins := winLoop divide width toas (toas.length + 1) (t.mjd - 1/1000) []
    some
      (toas.map (fun x =>
        bins.any (fun b => decide (b.min ≤ x.mjd) && decide (x.mjd ≤ b.max))),
       bins)

/-! ## Legacy segmenter (`dmx_ranges_old`) -/

/-- Round-half-to-even to an integer, the rounding mode of `numpy.round`. -/
def roundHalfEven (q : ℚ) : ℤ :=
  let f := ⌊q⌋
  if q - f < 1/2 then f
  else if 1/2 < q - f then f + 1
  else if 2 ∣ f then f else f + 1

/-- `MJDs.round(1)`: round to one decimal place (0.1-day resolution). -/
def roundTenth (q : ℚ) : ℚ := (roundHalfEven (10 * q) : ℚ) / 10

/-- Ascending sort (numpy sorts ascending). -/
def sortQ (l : List ℚ) : List ℚ := List.insertionSort (· ≤ ·) l

/-- Drop adjacent duplicates (of a sorted list, this leaves unique values). -/
def dedupAdj : List ℚ → List ℚ
  | [] => []
  | [x] => [x]
  | x :: y :: ys => if x = y then dedupAdj (y :: ys) else x :: dedupAdj (y :: ys)

/-- `np.unique(...)`: the sorted list of distinct values. -/
def uniqueSorted (l : List ℚ) : List ℚ := dedupAdj (sortQ l)

/-- `loMJDs = np.unique(MJDs[freqs < divide_freq].round(1))`. -/
def losOf (toas : List TOA) (divide : ℚ) : List ℚ :=
  uniqueSorted ((toas.filter (fun x => decide (x.freq < divide))).map
    (fun x => roundTenth x.mjd))

/-- `hiMJDs = np.unique(MJDs[freqs > divide_freq].round(1))` (note: strictly
above; TOAs exactly at the divide frequency fall in neither band). -/
def hisOf (toas : List TOA) (divide : ℚ) : List ℚ :=
  uniqueSorted ((toas.filter (fun x => decide (x.freq > divide))).map
    (fun x => roundTenth x.mjd))

/-- The surviving high-band times for low-band index `ii`: within `max_diff`
of `loMJDs[ii]`, and strictly closer to it than to the previous and the next
low-band time (when those exist). -/
def hiClose (los his : List ℚ) (maxd : ℚ) (ii : ℕ) : List ℚ :=
  let lo := los.getD ii 0
  let h1 := his.filter (fun h => decide (|h - lo| < maxd))
  let h2 :=
    if 0 < ii then
      h1.filter (fun h => decide (|h - lo| < |h - los.getD (ii - 1) 0|))
    else h1
  if ii + 1 < los.length then
    h2.filter (fun h => decide (|h - lo| < |h - los.getD (ii + 1) 0|))
  else h2

/-- The first pass of `dmx_ranges_old`: walk the low-band times in ascending
order; each with a surviving high-band set becomes a `dmxrange([loMJD],
list(hi_close))`, the rest are collected as `bad_los`. -/
def legacyStep1 (los his : List ℚ) (maxd : ℚ) : List dmxrange × List ℚ :=
  (List.range los.length).foldl
    (fun acc ii =>
      let hc := hiClose los his maxd ii
      if hc.isEmpty then (acc.1, acc.2 ++ [los.getD ii 0])
      else (acc.1 ++ [dmxrange.init [los.getD ii 0] hc], acc.2))
    ([], [])

/-- The candidate search of the orphan-rescue pass: running
`(absmindiff, ind)` over all bins, starting from `(2 * max_diff, 0)` and
taking a bin when both `|bad - min|` and `|bad - max|` are below `max_diff`
and `min` of those two distances strictly improves the best so far. -/
def rescueBest (maxd : ℚ) (DMXs : List dmxrange) (bad : ℚ) : ℚ × ℕ :=
  (List.range DMXs.length).foldl
    (fun best ii =>
      let D := DMXs.getD ii default
      if |bad - D.min| < maxd ∧ |bad - D.max| < maxd then
        if min |bad - D.min| |bad - D.max| < best.1 then
          (min |bad - D.min| |bad - D.max|, ii)
        else best
      else best)
    (2 * maxd, 0)

/-- The in-place mutation of the winning bin during the rescue pass:
`DMXs[ind].los.append(bad_lo)` followed by
`DMXs[ind].min = min(DMXs[ind].los + DMXs[ind].his)` and
`DMXs[ind].max = max(DMXs[ind].los + DMXs[ind].his)` — note the source
applies no `0.001`-day pad here, unlike `dmxrange.__init__`. -/
def rescueUpdate (bad : ℚ) (D : dmxrange) : dmxrange :=
  { los := D.los ++ [bad]
    his := D.his
    min := listMin ((D.los ++ [bad]) ++ D.his)
    max := listMax ((D.los ++ [bad]) ++ D.his) }

/-- Rescue one orphan: if the best candidate distance is below `max_diff`,
append the orphan to the winning bin's `los` and recompute that bin's
extent without pad. -/
def rescueOne (maxd : ℚ) (DMXs : List dmxrange) (bad : ℚ) : List dmxrange :=
  let best := rescueBest maxd DMXs bad
  if best.1 < maxd then
    DMXs.set best.2 (rescueUpdate bad (DMXs.getD best.2 default))
  else DMXs

/-- `dmx_ranges_old`: returns `(mask, bins)`.  The source iterates the
orphan-rescue pass over a Python `set` of the orphans, whose iteration
order the language does not fix; the ascending discovery order (the order
the orphans were appended in pass one) is used here.  The mask bounds are
exclusive and padded: `bin.min - offset < t < bin.max + offset`. -/
def dmx_ranges_old (toas : List TOA) (divide offset maxd : ℚ) :
    List Bool × List dmxrange :=
  let los := losOf toas divide
  let his := hisOf toas divide
  let s1 := legacyStep1 los his maxd
  let DMXs := s1.2.foldl (rescueOne maxd) s1.1
  (toas.map (fun x =>
    DMXs.any (fun D =>
      decide (D.min - offset < x.mjd) && decide (x.mjd < D.max + offset))),
   DMXs)

/-! ## Summarizer (`dmxparse`)

The source returns each uncertainty through `np.sqrt` of a nonnegative
quantity (`DMX_vErrs[i] = np.sqrt(cc[i, i])`,
`DMX_mean_err = np.sqrt(cc.matrix.sum()) / n`), and the fallback path
returns the raw uncertainties unchanged.  Since the real square root is
injective on nonnegative reals, the embedding carries the *squares* of the
returned uncertainties throughout: `dmx_verr_sqs` holds `cc[i, i]` on the
covariance path and `err ^ 2` on the fallback path, and `avg_dm_err_sq`
holds `cc.matrix.sum() / n ^ 2` resp. the squared fallback mean.  A
placeholder (`None` / masked) uncertainty is `Option.none`. -/

/-- One fitted DMX bin parameter as read off the model: the `%04d`-style
epoch suffix, `.value`, `.frozen`, `.uncertainty_value`, and the
`DMXR1` / `DMXR2` boundary epochs. -/
structure DMXParam where
  epoch : String
  value : ℚ
  frozen : Bool
  err : ℚ
  r1 : ℚ
  r2 : ℚ
deriving DecidableEq, Repr

instance : Inhabited DMXParam := ⟨⟨"", 0, false, 0, 0, 0⟩⟩

/-- Entry `(i, j)` of a row-major rational matrix (junk `0` out of range;
only read in range). -/
def matGet (C : List (List ℚ)) (i j : ℕ) : ℚ := (C.getD i []).getD j 0

/-- `cc.matrix.sum()`: the sum of all entries. -/
def matSum (C : List (List ℚ)) : ℚ := (C.map List.sum).sum

/-- Whether `C` is an `n × n` matrix; `np.dot(m, cc)` and `np.dot(-, m)`
with `m = np.identity(n) - np.ones((n, n)) / n` raise `ValueError` iff this
fails. -/
def matIsSquare (n : ℕ) (C : List (List ℚ)) : Bool :=
  (C.length == n) && C.all (fun row => row.length == n)

/-- Entry `(i, j)` of `m = np.identity(n) - np.ones((n, n)) / float(n)`. -/
def mEntry (n : ℕ) (i j : ℕ) : ℚ :=
  (if i = j then 1 else 0) - 1 / (n : ℚ)

/-- Entry `(i, j)` of `np.dot(np.dot(m, cc), m)`. -/
def mcmEntry (n : ℕ) (C : List (List ℚ)) (i j : ℕ) : ℚ :=
  ∑ l ∈ Finset.range n,
    (∑ k ∈ Finset.range n, mEntry n i k * matGet C k l) * mEntry n l j

/-- The diagonal of `np.dot(np.dot(m, cc), m)`: the corrected variances
(`DMX_vErrs[i] = np.sqrt(cc[i, i])` reads these entries). -/
def covDiag (n : ℕ) (C : List (List ℚ)) : List ℚ :=
  (List.range n).map (fun i => mcmEntry n C i i)

/-- `np.where(mask_idxs)[0]`: the indices of the frozen bins, ascending. -/
def frozenIdxs (mask : List Bool) : List ℕ :=
  (List.range mask.length).filter (fun i => mask.getD i false)

/-- `np.insert(a, obj, None)` for an ascending index list `obj`: element
`k` of `obj` is inserted at final position `obj[k] + k`; positions beyond
the final length raise `IndexError` (modelled as `none`).  Note `obj` holds
positions the source took from the *full* bin list, applied to the
compressed array `a`. -/
def npInsertNone (a : List ℚ) (obj : List ℕ) : Option (List (Option ℚ)) :=
  let newlen := a.length + obj.length
  let pos := obj.enum.map (fun p => p.2 + p.1)
  if pos.all (fun p => decide (p < newlen)) then
    some ((List.range newlen).map (fun j =>
      if j ∈ pos then none
      else some (a.getD (j - pos.countP (fun p => decide (p < j))) 0)))
  else none

/-- `np.mean` of a (possibly masked) array: the mean of the unmasked
entries.  With nothing masked this is the plain arithmetic mean.
(`ℚ` division by zero is `0`; the source never takes the mean of a fully
masked array on the paths verified here.) -/
def maskedMean (vals : List ℚ) (mask : List Bool) : ℚ :=
  let keep := ((vals.zip mask).filter (fun p => !p.2)).map Prod.fst
  keep.sum / keep.length

/-- `np.mean` of a plain array. -/
def qMean (l : List ℚ) : ℚ := l.sum / l.length

/-- Python `sorted` on strings (ascending lexicographic). -/
def sortStr (l : List String) : List String := List.insertionSort (· ≤ ·) l

/-- `sorted(["DMX_" + x for x in dmx_epochs])`: the labels `dmxparse`
requests from `fitter.parameter_covariance_matrix.get_label_matrix` —
the names of *all* DMX bin parameters, frozen ones included. -/
def requestedLabels (bins : List DMXParam) : List String :=
  sortStr (bins.map (fun b => "DMX_" ++ b.epoch))

/-- The output record of `dmxparse` (squared-uncertainty convention as
described above; the optional `dmxparse.out` file write is I/O and not
modelled). -/
structure DMXParseResult where
  dmxs : List ℚ
  dmx_verr_sqs : List (Option ℚ)
  dmxeps : List ℚ
  r1s : List ℚ
  r2s : List ℚ
  bins : List String
  mean_dmx : ℚ
  avg_dm_err_sq : ℚ
deriving DecidableEq, Repr

/-- The fallback branch of `dmxparse` (no covariance matrix on the fitter):
`DMX_mean_err = np.mean(DMX_Errs)` (the masked mean when some bins are
frozen) and `DMX_vErrs = DMX_Errs`, as the pair
`(avg_dm_err_sq, dmx_verr_sqs)` in the squared convention. -/
def fallbackStep (bins : List DMXParam) : ℚ × List (Option ℚ) :=
  ((maskedMean (bins.map DMXParam.err) (bins.map DMXParam.frozen)) ^ 2,
   (bins.map DMXParam.err).map (fun e => some (e ^ 2)))

/-- The covariance branch of `dmxparse`, given the matrix `C` the provider
returned: `n = len(DMX_Errs) - np.sum(mask_idxs)`;
`DMX_mean_err = np.sqrt(cc.matrix.sum()) / float(n)` (squared here);
`cc = np.dot(np.dot(m, cc.matrix), m)` with
`m = np.identity(n) - np.ones((n, n)) / float(n)`, read on the diagonal;
then, when any bin is frozen,
`DMX_vErrs = np.insert(DMX_vErrs, np.where(mask_idxs)[0], None)`.
`none` models `np.dot`'s `ValueError` on a dimension mismatch and
`np.insert`'s `IndexError`. -/
def covStep (bins : List DMXParam) (C : List (List ℚ)) :
    Option (ℚ × List (Option ℚ)) :=
  let mask := bins.map DMXParam.frozen
  let n := bins.length - mask.countP id
  if matIsSquare n C then
    let errSq := matSum C / (n : ℚ) ^ 2
    if mask.any id then
      (npInsertNone (covDiag n C) (frozenIdxs mask)).map (fun v => (errSq, v))
    else some (errSq, (covDiag n C).map some)
  else none

/-- The tail of `dmxparse`: the count check
`len(DMXs) != len(DMX_Errs) or len(DMXs) != len(DMX_vErrs)` raises
`RuntimeError` (modelled `none`), otherwise the output record is built. -/
def finishResult (bins : List DMXParam) (p : ℚ × List (Option ℚ)) :
    Option DMXParseResult :=
  if (bins.map DMXParam.value).length = (bins.map DMXParam.err).length ∧
      (bins.map DMXParam.value).length = p.2.length then
    some { dmxs := (bins.map DMXParam.value).map
             (fun v => v - qMean (bins.map DMXParam.value))
           dmx_verr_sqs := p.2
           dmxeps := ((bins.map DMXParam.r1).zip (bins.map DMXParam.r2)).map
             (fun q => (q.1 + q.2) / 2)
           r1s := bins.map DMXParam.r1
           r2s := bins.map DMXParam.r2
           bins := bins.map (fun b => "DMX_" ++ b.epoch)
           mean_dmx := qMean (bins.map DMXParam.value)
           avg_dm_err_sq := p.1 }
  else none

/-- The branch selection of `dmxparse`:
`if hasattr(fitter, "parameter_covariance_matrix")` takes the covariance
branch on `get_label_matrix(sorted(["DMX_" + x for x in dmx_epochs]))`,
otherwise the fallback branch. -/
def dmxBranch (bins : List DMXParam)
    (cov : Option (List String → List (List ℚ))) :
    Option (ℚ × List (Option ℚ)) :=
  match cov with
  | none => some (fallbackStep bins)
  | some getLabelMatrix => covStep bins (getLabelMatrix (requestedLabels bins))

/-- `dmxparse fitter`: `bins` is the list of DMX bin parameters found on
the fitted model (in `fitter.model.params` order), `cov` is
`some get_label_matrix` when the fitter has a `parameter_covariance_matrix`
and `none` otherwise.  `none` models the source's exceptions: no DMX
parameters (`RuntimeError`), dimension mismatch in `np.dot` (`ValueError`),
out-of-bounds `np.insert` (`IndexError`), and the final count check
(`RuntimeError`).  `DMX_mean = np.mean(DMXs)` over all bins, frozen ones
included, and the returned `dmxs` are `DMXs - DMX_mean`. -/
def dmxparse (bins : List DMXParam)
    (cov : Option (List String → List (List ℚ))) : Option DMXParseResult :=
  if bins.isEmpty then none
  else
    match dmxBranch bins cov with
    | none => none
    | some p => finishResult bins p

/-- The `n × n` scalar matrix `v * I` (used to state the diagonal
equal-variance corollary of the covariance correction). -/
def scalarMat (n : ℕ) (v : ℚ) : List (List ℚ) :=
  (List.range n).map (fun i =>
    (List.range n).map (fun j => if i = j then v else 0))

/-- The output record of the fallback (no covariance matrix) path. -/
def fallbackResult (bins : List DMXParam) : DMXParseResult :=
  { dmxs := (bins.map DMXParam.value).map
      (fun v => v - qMean (bins.map DMXParam.value))
    dmx_verr_sqs := (bins.map DMXParam.err).map (fun e => some (e ^ 2))
    dmxeps := ((bins.map DMXParam.r1).zip (bins.map DMXParam.r2)).map
      (fun p => (p.1 + p.2) / 2)
    r1s := bins.map DMXParam.r1
    r2s := bins.map DMXParam.r2
    bins := bins.map (fun b => "DMX_" ++ b.epoch)
    mean_dmx := qMean (bins.map DMXParam.value)
    avg_dm_err_sq := (maskedMean (bins.map DMXParam.err)
      (bins.map DMXParam.frozen)) ^ 2 }

/-! ## Concrete inputs used in the witnesses and counterexamples -/

/-- Two dual-band TOAs one day apart: one accepted windowed bin. -/
def toasA : List TOA := [⟨0, 500⟩, ⟨1, 1500⟩]

/-- A low-band TOA plus one exactly at the divide frequency. -/
def toasB : List TOA := [⟨0, 500⟩, ⟨1, 1000⟩]

/-- Low-band TOAs at days 0 and 10, one high-band TOA at day 1: the day-10
TOA is an orphan for the legacy pass 1 and is rescued into the first bin. -/
def toasC : List TOA := [⟨0, 500⟩, ⟨1, 1500⟩, ⟨10, 500⟩]

/-- Four fit (non-frozen) DMX bins with values 1, 2, 3, 4. -/
def binsA : List DMXParam :=
  [⟨"0001", 1, false, 1/10, 0, 1⟩, ⟨"0002", 2, false, 2/10, 1, 2⟩,
   ⟨"0003", 3, false, 3/10, 2, 3⟩, ⟨"0004", 4, false, 4/10, 3, 4⟩]

/-- Two fit DMX bins (for the identity-covariance scenario). -/
def binsB : List DMXParam :=
  [⟨"0001", 1, false, 1/10, 0, 1⟩, ⟨"0002", 2, false, 2/10, 1, 2⟩]

/-- Four bins, frozen pattern `[true, false, true, false]`. -/
def binsC : List DMXParam :=
  [⟨"0001", 1, true, 0, 0, 1⟩, ⟨"0002", 2, false, 2/10, 1, 2⟩,
   ⟨"0003", 3, true, 0, 2, 3⟩, ⟨"0004", 4, false, 4/10, 3, 4⟩]

/-- Four bins, frozen pattern `[false, true, false, true]`. -/
def binsD : List DMXParam :=
  [⟨"0001", 1, false, 1/10, 0, 1⟩, ⟨"0002", 2, true, 0, 1, 2⟩,
   ⟨"0003", 3, false, 3/10, 2, 3⟩, ⟨"0004", 4, true, 0, 3, 4⟩]

/-- A covariance provider returning the 2×2 identity matrix. -/
def covB : List String → List (List ℚ) := fun _ => scalarMat 2 1

/-- The `dmxparse` output on `binsC` with the identity covariance:
note the placeholders sit at positions 0 and 3 although the frozen bins
are at positions 0 and 2. -/
def resC : DMXParseResult :=
  { dmxs := [-(3/2), -(1/2), 1/2, 3/2]
    dmx_verr_sqs := [none, some (1/2), some (1/2), none]
    dmxeps := [1/2, 3/2, 5/2, 7/2]
    r1s := [0, 1, 2, 3]
    r2s := [1, 2, 3, 4]
    bins := ["DMX_0001", "DMX_0002", "DMX_0003", "DMX_0004"]
    mean_dmx := 5/2
    avg_dm_err_sq := 1/2 }

/-- The `dmxparse` output on `binsB` with the identity covariance. -/
def resB : DMXParseResult :=
  { dmxs := [-(1/2), 1/2]
    dmx_verr_sqs := [some (1/2), some (1/2)]
    dmxeps := [1/2, 3/2]
    r1s := [0, 1]
    r2s := [1, 2]
    bins := ["DMX_0001", "DMX_0002"]
    mean_dmx := 3/2
    avg_dm_err_sq := 1/2 }

end PintUtils

namespace PintUtils

/-! ## General helper lemmas -/

theorem foldl_inv {α σ : Type _} (P : σ → Prop) (f : σ → α → σ) :
    ∀ (l : List α) (s : σ), P s →
      (∀ s a, a ∈ l → P s → P (f s a)) → P (l.foldl f s) := by
  intro l
  induction l with
  | nil => intro s h _; exact h
  | cons x xs ih =>
    intro s h hstep
    exact ih (f s x) (hstep s x (by simp) h)
      (fun s a ha hp => hstep s a (by simp [ha]) hp)

theorem foldl_min_le_init (xs : List ℚ) (a : ℚ) : xs.foldl min a ≤ a := by
  induction xs generalizing a with
  | nil => simp
  | cons y ys ih => exact le_trans (ih (min a y)) (min_le_left a y)

theorem foldl_min_le_mem (xs : List ℚ) (a y : ℚ) (hy : y ∈ xs) :
    xs.foldl min a ≤ y := by
  induction xs generalizing a with
  | nil => cases hy
  | cons z zs ih =>
    rcases List.mem_cons.1 hy with rfl | hy'
    · exact le_trans (foldl_min_le_init zs (min a y)) (min_le_right a y)
    · exact ih (min a z) hy'

theorem foldl_min_mem (xs : List ℚ) (a : ℚ) :
    xs.foldl min a = a ∨ xs.foldl min a ∈ xs := by
  induction xs generalizing a with
  | nil => left; rfl
  | cons y ys ih =>
    rw [List.foldl_cons]
    rcases ih (min a y) with h | h
    · rw [h]
      rcases min_choice a y with h' | h'
      · left; exact h'
      · right; rw [h']; exact List.mem_cons_self y ys
    · right; exact List.mem_cons_of_mem y h

theorem listMin_le (l : List ℚ) (x : ℚ) (hx : x ∈ l) : listMin l ≤ x := by
  cases l with
  | nil => cases hx
  | cons y ys =>
    rcases List.mem_cons.1 hx with rfl | hx'
    · exact foldl_min_le_init ys x
    · exact foldl_min_le_mem ys y x hx'

theorem listMin_mem (l : List ℚ) (h : l ≠ []) : listMin l ∈ l := by
  cases l with
  | nil => exact absurd rfl h
  | cons y ys =>
    rcases foldl_min_mem ys y with h' | h'
    · rw [listMin, h']; exact List.mem_cons_self y ys
    · exact List.mem_cons_of_mem y h'

theorem listMin_congr {l l' : List ℚ} (h' : l' ≠ [])
    (hmem : ∀ x, x ∈ l ↔ x ∈ l') : listMin l = listMin l' := by
  have hl : l ≠ [] := by
    intro h0
    have := (hmem (listMin l')).2 (listMin_mem l' h')
    rw [h0] at this
    cases this
  exact le_antisymm
    (listMin_le l _ ((hmem _).2 (listMin_mem l' h')))
    (listMin_le l' _ ((hmem _).1 (listMin_mem l hl)))

theorem foldl_max_ge_init (xs : List ℚ) (a : ℚ) : a ≤ xs.foldl max a := by
  induction xs generalizing a with
  | nil => simp
  | cons y ys ih => exact le_trans (le_max_left a y) (ih (max a y))

theorem foldl_max_ge_mem (xs : List ℚ) (a y : ℚ) (hy : y ∈ xs) :
    y ≤ xs.foldl max a := by
  induction xs generalizing a with
  | nil => cases hy
  | cons z zs ih =>
    rcases List.mem_cons.1 hy with rfl | hy'
    · exact le_trans (le_max_right a y) (foldl_max_ge_init zs (max a y))
    · exact ih (max a z) hy'

theorem foldl_max_mem (xs : List ℚ) (a : ℚ) :
    xs.foldl max a = a ∨ xs.foldl max a ∈ xs := by
  induction xs generalizing a with
  | nil => left; rfl
  | cons y ys ih =>
    rw [List.foldl_cons]
    rcases ih (max a y) with h | h
    · rw [h]
      rcases max_choice a y with h' | h'
      · left; exact h'
      · right; rw [h']; exact List.mem_cons_self y ys
    · right; exact List.mem_cons_of_mem y h

theorem le_listMax (l : List ℚ) (x : ℚ) (hx : x ∈ l) : x ≤ listMax l := by
  cases l with
  | nil => cases hx
  | cons y ys =>
    rcases List.mem_cons.1 hx with rfl | hx'
    · exact foldl_max_ge_init ys x
    · exact foldl_max_ge_mem ys y x hx'

theorem listMax_mem (l : List ℚ) (h : l ≠ []) : listMax l ∈ l := by
  cases l with
  | nil => exact absurd rfl h
  | cons y ys =>
    rcases foldl_max_mem ys y with h' | h'
    · rw [listMax, h']; exact List.mem_cons_self y ys
    · exact List.mem_cons_of_mem y h'

theorem listMax_congr {l l' : List ℚ} (h' : l' ≠ [])
    (hmem : ∀ x, x ∈ l ↔ x ∈ l') : listMax l = listMax l' := by
  have hl : l ≠ [] := by
    intro h0
    have := (hmem (listMax l')).2 (listMax_mem l' h')
    rw [h0] at this
    cases this
  exact le_antisymm
    (le_listMax l' _ ((hmem _).1 (listMax_mem l hl)))
    (le_listMax l _ ((hmem _).2 (listMax_mem l' h')))

theorem sum_map_sub (l : List ℚ) (c : ℚ) :
    (l.map (fun v => v - c)).sum = l.sum - l.length * c := by
  induction l with
  | nil => simp
  | cons x xs ih =>
    simp only [List.map_cons, List.sum_cons, ih, List.length_cons]
    push_cast
    ring

theorem getD_map_lt {α β : Type _} (l : List α) (f : α → β) (i : ℕ)
    (h : i < l.length) (d : α) (b : β) :
    (l.map f).getD i b = f (l.getD i d) := by
  rw [List.getD_eq_getElem?_getD, List.getD_eq_getElem?_getD,
    List.getElem?_map, List.getElem?_eq_getElem h]
  simp

theorem getD_range_lt {n k : ℕ} (h : k < n) (d : ℕ) :
    (List.range n).getD k d = k := by
  rw [List.getD_eq_getElem?_getD, List.getElem?_range h]
  rfl

theorem getD_map_range {β : Type _} {n k : ℕ} (h : k < n) (f : ℕ → β) (b : β) :
    ((List.range n).map f).getD k b = f k := by
  rw [getD_map_lt (List.range n) f k (by simpa using h) 0 b, getD_range_lt h]

end PintUtils

namespace PintUtils

/-! ## Matrix lemmas for the covariance correction -/

theorem matGet_scalarMat {n k l : ℕ} (hk : k < n) (hl : l < n) (v : ℚ) :
    matGet (scalarMat n v) k l = if k = l then v else 0 := by
  unfold matGet scalarMat
  rw [getD_map_range hk _ []]
  rw [getD_map_range hl _ 0]

theorem sum_mEntry_sq {n : ℕ} (hn : 0 < n) {i : ℕ} (hi : i < n) :
    ∑ l ∈ Finset.range n, mEntry n i l * mEntry n l i = 1 - 1 / (n : ℚ) := by
  have hn' : (n : ℚ) ≠ 0 := Nat.cast_ne_zero.2 hn.ne'
  have hstep : ∀ l, mEntry n i l * mEntry n l i
      = 1 / (n : ℚ) ^ 2 + if l = i then 1 - 2 / (n : ℚ) else 0 := by
    intro l
    by_cases h : l = i
    · subst h
      simp only [mEntry, if_pos rfl, if_true]
      field_simp
      ring
    · have h' : ¬ i = l := fun hh => h hh.symm
      simp only [mEntry, if_neg h, if_neg h']
      field_simp
      ring
  rw [Finset.sum_congr rfl (fun l _ => hstep l)]
  rw [Finset.sum_add_distrib, Finset.sum_const, Finset.card_range,
    Finset.sum_ite_eq' (Finset.range n) i (fun _ => 1 - 2 / (n : ℚ))]
  rw [if_pos (Finset.mem_range.2 hi)]
  field_simp
  ring

theorem mcmEntry_scalarMat {n : ℕ} (hn : 0 < n) {i : ℕ} (hi : i < n) (v : ℚ) :
    mcmEntry n (scalarMat n v) i i = v * (1 - 1 / (n : ℚ)) := by
  unfold mcmEntry
  have hinner : ∀ l ∈ Finset.range n,
      (∑ k ∈ Finset.range n, mEntry n i k * matGet (scalarMat n v) k l)
          * mEntry n l i
        = v * (mEntry n i l * mEntry n l i) := by
    intro l hl
    have h1 : (∑ k ∈ Finset.range n, mEntry n i k * matGet (scalarMat n v) k l)
        = mEntry n i l * v := by
      rw [Finset.sum_congr rfl (fun k hk => by
        rw [matGet_scalarMat (Finset.mem_range.1 hk) (Finset.mem_range.1 hl) v,
          mul_ite, mul_zero])]
      rw [Finset.sum_ite_eq' (Finset.range n) l (fun k => mEntry n i k * v)]
      rw [if_pos hl]
    rw [h1]
    ring
  rw [Finset.sum_congr rfl hinner, ← Finset.mul_sum, sum_mEntry_sq hn hi]

theorem covDiag_length (n : ℕ) (C : List (List ℚ)) : (covDiag n C).length = n := by
  simp [covDiag]

theorem covDiag_getD {n : ℕ} (C : List (List ℚ)) {i : ℕ} (hi : i < n) :
    (covDiag n C).getD i 0 = mcmEntry n C i i := by
  unfold covDiag
  rw [getD_map_range hi _ 0]

/-! ## Mean lemmas -/

theorem maskedMean_all_false (bins : List DMXParam)
    (h : ∀ b ∈ bins, b.frozen = false) :
    maskedMean (bins.map DMXParam.err) (bins.map DMXParam.frozen)
      = qMean (bins.map DMXParam.err) := by
  unfold maskedMean qMean
  have hfilter :
      (((bins.map DMXParam.err).zip (bins.map DMXParam.frozen)).filter
          (fun p => !p.2))
        = (bins.map DMXParam.err).zip (bins.map DMXParam.frozen) := by
    apply List.filter_eq_self.2
    intro p hp
    have h2 := (List.of_mem_zip hp).2
    obtain ⟨b, hb, hbe⟩ := List.mem_map.1 h2
    rw [← hbe, h b hb]
    rfl
  rw [hfilter, List.map_fst_zip _ _ (by simp)]

end PintUtils

namespace PintUtils

theorem dmxparse_none_eq (bins : List DMXParam) (h : bins ≠ []) :
    dmxparse bins none = some (fallbackResult bins) := by
  unfold dmxparse dmxBranch fallbackResult finishResult fallbackStep
  rw [if_neg (by simpa using h)]
  dsimp only
  rw [if_pos ⟨by simp, by simp⟩]

/-- Anatomy of a successful `finishResult`: the record's fields. -/
theorem finishResult_spec (bins : List DMXParam) (p : ℚ × List (Option ℚ))
    (r : DMXParseResult) (hr : finishResult bins p = some r) :
    r.mean_dmx = qMean (bins.map DMXParam.value) ∧
    r.dmxs = (bins.map DMXParam.value).map
      (fun v => v - qMean (bins.map DMXParam.value)) ∧
    r.dmx_verr_sqs = p.2 ∧ r.avg_dm_err_sq = p.1 := by
  unfold finishResult at hr
  by_cases hc : (bins.map DMXParam.value).length = (bins.map DMXParam.err).length ∧
      (bins.map DMXParam.value).length = p.2.length
  · rw [if_pos hc] at hr
    cases hr
    exact ⟨rfl, rfl, rfl, rfl⟩
  · rw [if_neg hc] at hr
    cases hr

/-- A successful `dmxparse` run went through `finishResult` on the pair
produced by the branch selected by `cov`. -/
theorem dmxparse_some_elim (bins : List DMXParam)
    (cov : Option (List String → List (List ℚ))) (r : DMXParseResult)
    (hr : dmxparse bins cov = some r) :
    ∃ p, finishResult bins p = some r ∧ dmxBranch bins cov = some p := by
  unfold dmxparse at hr
  by_cases h : bins.isEmpty
  · rw [if_pos h] at hr
    cases hr
  · rw [if_neg h] at hr
    cases hp : dmxBranch bins cov with
    | none => rw [hp] at hr; cases hr
    | some p => rw [hp] at hr; exact ⟨p, hr, rfl⟩

/-- Anatomy of a successful `covStep`: the matrix passed the `n × n`
dimension check and the first component is the (squared) mean error
`cc.matrix.sum() / n²`. -/
theorem covStep_some_spec (bins : List DMXParam) (C : List (List ℚ))
    (p : ℚ × List (Option ℚ)) (hp : covStep bins C = some p) :
    matIsSquare (bins.length - (bins.map DMXParam.frozen).countP id) C = true ∧
    p.1 = matSum C /
      ((bins.length - (bins.map DMXParam.frozen).countP id : ℕ) : ℚ) ^ 2 := by
  unfold covStep at hp
  dsimp only at hp
  by_cases hsq : matIsSquare (bins.length - (bins.map DMXParam.frozen).countP id) C = true
  · rw [if_pos hsq] at hp
    refine ⟨hsq, ?_⟩
    by_cases hany : (bins.map DMXParam.frozen).any id = true
    · rw [if_pos hany] at hp
      cases hins : npInsertNone
          (covDiag (bins.length - (bins.map DMXParam.frozen).countP id) C)
          (frozenIdxs (bins.map DMXParam.frozen)) with
      | none => rw [hins] at hp; cases hp
      | some v =>
        rw [hins] at hp
        cases hp
        rfl
    · rw [if_neg hany] at hp
      cases hp
      rfl
  · rw [if_neg hsq] at hp
    cases hp

/-- `covStep` with no frozen bins and an `n × n` matrix: the full-length
diagonal is returned with no placeholder insertion. -/
theorem covStep_no_frozen (bins : List DMXParam) (C : List (List ℚ))
    (hnf : ∀ b ∈ bins, b.frozen = false)
    (hsq : matIsSquare bins.length C = true) :
    covStep bins C =
      some (matSum C / (bins.length : ℚ) ^ 2,
        (covDiag bins.length C).map some) := by
  have hc : (bins.map DMXParam.frozen).countP id = 0 := by
    rw [List.countP_eq_zero]
    intro a ha
    obtain ⟨b, hb, hbe⟩ := List.mem_map.1 ha
    rw [← hbe, hnf b hb]
    simp
  have hany : (bins.map DMXParam.frozen).any id = false := by
    rw [List.any_eq_false]
    intro a ha
    obtain ⟨b, hb, hbe⟩ := List.mem_map.1 ha
    rw [← hbe, hnf b hb]
    simp
  unfold covStep
  dsimp only
  rw [hc, Nat.sub_zero, if_pos hsq, hany]
  rfl

end PintUtils

namespace PintUtils

/-! ## Claim C8 — empty-input behavior -/

/-- C8 (counterexample): the claim says both segmenters return zero bins
and an empty mask on an empty observation stream "rather than failing",
but the windowed segmenter `dmx_ranges` evaluates `MJDs[0]` on the empty
array and raises `IndexError` (embedded as `none`). -/
theorem claim_C8_counterexample : dmx_ranges [] 1000 15 = none := rfl

/-- C8 (amended): on an empty observation stream the legacy segmenter
`dmx_ranges_old` returns zero bins and an empty (all-false) mask, while
the windowed segmenter `dmx_ranges` fails with an index error. -/
theorem claim_C8_empty_input (divide offset maxd width : ℚ) :
    dmx_ranges_old [] divide offset maxd = ([], []) ∧
    dmx_ranges [] divide width = none :=
  ⟨rfl, rfl⟩

end PintUtils

namespace PintUtils

/-! ## Claim C1 — summarizer mean subtraction -/

/-- C1: `dmxparse` computes `DMX_mean` as the arithmetic mean of all bin
values (frozen and fit alike) and returns the mean-subtracted values
`v_i - DMX_mean`; hence the returned mean-subtracted values sum to zero
(exactly, in the rational model). -/
theorem claim_C1_mean_subtraction (bins : List DMXParam)
    (cov : Option (List String → List (List ℚ))) (r : DMXParseResult)
    (h : bins ≠ []) (hr : dmxparse bins cov = some r) :
    r.mean_dmx = (bins.map DMXParam.value).sum / (bins.length : ℚ) ∧
    r.dmxs = (bins.map DMXParam.value).map
      (fun v => v - (bins.map DMXParam.value).sum / (bins.length : ℚ)) ∧
    r.dmxs.sum = 0 := by
  obtain ⟨p, hfin, _⟩ := dmxparse_some_elim bins cov r hr
  obtain ⟨hmean, hdmxs, _, _⟩ := finishResult_spec bins p r hfin
  have hq : qMean (bins.map DMXParam.value)
      = (bins.map DMXParam.value).sum / (bins.length : ℚ) := by
    simp [qMean]
  have hlen : ((bins.length : ℚ)) ≠ 0 := by
    exact_mod_cast Nat.cast_ne_zero.2 (by simpa [List.length_eq_zero] using h)
  refine ⟨by rw [hmean, hq], by rw [hdmxs, hq], ?_⟩
  have hsum : r.dmxs.sum = (bins.map DMXParam.value).sum
      - ((bins.map DMXParam.value).length : ℚ)
          * qMean (bins.map DMXParam.value) := by
    rw [hdmxs, sum_map_sub]
  rw [hsum, hq, List.length_map]
  field_simp

/-- C1 witness: concrete scenario 3 of the specification — four bins with
values `[1, 2, 3, 4]` and no covariance matrix give `DMX_mean = 5/2` and
mean-subtracted values `[-3/2, -1/2, 1/2, 3/2]`, summing to zero. -/
theorem claim_C1_witness :
    binsA ≠ [] ∧
    dmxparse binsA none = some (fallbackResult binsA) ∧
    (fallbackResult binsA).mean_dmx = 5/2 ∧
    (fallbackResult binsA).dmxs = [-(3/2), -(1/2), 1/2, 3/2] ∧
    ((fallbackResult binsA).mean_dmx
        = (binsA.map DMXParam.value).sum / (binsA.length : ℚ) ∧
     (fallbackResult binsA).dmxs = (binsA.map DMXParam.value).map
        (fun v => v - (binsA.map DMXParam.value).sum / (binsA.length : ℚ)) ∧
     (fallbackResult binsA).dmxs.sum = 0) := by
  have h1 : binsA ≠ [] := by simp [binsA]
  have h2 : dmxparse binsA none = some (fallbackResult binsA) :=
    dmxparse_none_eq binsA h1
  refine ⟨h1, h2, ?_, ?_, claim_C1_mean_subtraction binsA none _ h1 h2⟩
  · norm_num [fallbackResult, qMean, binsA]
  · norm_num [fallbackResult, qMean, binsA]

/-! ## Claim C9 — covariance-absent fallback -/

/-- C9: when the fitter exposes no covariance matrix, `dmxparse` succeeds
(a degraded result, not an error) with the corrected uncertainties equal to
the raw per-bin fit uncertainties exactly (squared convention) and
`mean_err` the arithmetic mean of the fit uncertainties (the masked mean,
which is the plain mean of all of them when no bin is frozen). -/
theorem claim_C9_covariance_absent_fallback (bins : List DMXParam)
    (h : bins ≠ []) :
    dmxparse bins none = some (fallbackResult bins) ∧
    (fallbackResult bins).dmx_verr_sqs
      = (bins.map DMXParam.err).map (fun e => some (e ^ 2)) ∧
    (fallbackResult bins).avg_dm_err_sq
      = (maskedMean (bins.map DMXParam.err) (bins.map DMXParam.frozen)) ^ 2 ∧
    ((∀ b ∈ bins, b.frozen = false) →
      (fallbackResult bins).avg_dm_err_sq
        = (qMean (bins.map DMXParam.err)) ^ 2) := by
  refine ⟨dmxparse_none_eq bins h, rfl, rfl, fun hnf => ?_⟩
  show (maskedMean (bins.map DMXParam.err) (bins.map DMXParam.frozen)) ^ 2 = _
  rw [maskedMean_all_false bins hnf]

/-- C9 witness: at the four fit bins with uncertainties
`[1/10, 2/10, 3/10, 4/10]`, the fallback returns those uncertainties
unchanged (squares `[1/100, 1/25, 9/100, 4/25]`) and the mean error is
their plain mean `1/4` (square `1/16`). -/
theorem claim_C9_witness :
    binsA ≠ [] ∧
    (dmxparse binsA none = some (fallbackResult binsA) ∧
     (fallbackResult binsA).dmx_verr_sqs
        = (binsA.map DMXParam.err).map (fun e => some (e ^ 2)) ∧
     (fallbackResult binsA).avg_dm_err_sq
        = (maskedMean (binsA.map DMXParam.err) (binsA.map DMXParam.frozen)) ^ 2 ∧
     ((∀ b ∈ binsA, b.frozen = false) →
       (fallbackResult binsA).avg_dm_err_sq
          = (qMean (binsA.map DMXParam.err)) ^ 2)) ∧
    (fallbackResult binsA).dmx_verr_sqs
      = [some (1/100), some (1/25), some (9/100), some (4/25)] ∧
    (fallbackResult binsA).avg_dm_err_sq = 1/16 := by
  have h1 : binsA ≠ [] := by simp [binsA]
  refine ⟨h1, claim_C9_covariance_absent_fallback binsA h1, ?_, ?_⟩
  · norm_num [fallbackResult, binsA]
  · norm_num [fallbackResult, maskedMean, binsA, qMean]

end PintUtils

namespace PintUtils

/-! ## Claim C2 — covariance correction -/

theorem frozen_countP_zero (bins : List DMXParam)
    (hnf : ∀ b ∈ bins, b.frozen = false) :
    (bins.map DMXParam.frozen).countP id = 0 := by
  rw [List.countP_eq_zero]
  intro a ha
  obtain ⟨b, hb, hbe⟩ := List.mem_map.1 ha
  rw [← hbe, hnf b hb]
  simp

/-- `dmxparse` on the covariance branch equals `finishResult` of the
`covStep` pair. -/
theorem dmxparse_cov_finish (bins : List DMXParam)
    (f : List String → List (List ℚ)) (p : ℚ × List (Option ℚ))
    (h : bins ≠ [])
    (hcov : covStep bins (f (requestedLabels bins)) = some p) :
    dmxparse bins (some f) = finishResult bins p := by
  unfold dmxparse
  rw [if_neg (by simpa using h)]
  show (match dmxBranch bins (some f) with
        | none => none
        | some p => finishResult bins p) = _
  rw [show dmxBranch bins (some f) = some p from hcov]

/-- On a successful covariance-branch run with no frozen bins, the
corrected (squared) uncertainties are exactly the diagonal of
`m · C · m`. -/
theorem dmxparse_cov_no_frozen_verrs (bins : List DMXParam)
    (f : List String → List (List ℚ)) (r : DMXParseResult)
    (hnf : ∀ b ∈ bins, b.frozen = false)
    (hr : dmxparse bins (some f) = some r) :
    r.dmx_verr_sqs
      = (covDiag bins.length (f (requestedLabels bins))).map some := by
  obtain ⟨p, hfin, hbr⟩ := dmxparse_some_elim bins (some f) r hr
  have hcov : covStep bins (f (requestedLabels bins)) = some p := hbr
  obtain ⟨hsq, -⟩ := covStep_some_spec bins _ p hcov
  rw [frozen_countP_zero bins hnf, Nat.sub_zero] at hsq
  have hcov' := covStep_no_frozen bins (f (requestedLabels bins)) hnf hsq
  rw [hcov] at hcov'
  obtain ⟨-, -, hverr, -⟩ := finishResult_spec bins p r hfin
  rw [hverr, Option.some_inj.1 hcov']

/-- C2: when a covariance matrix is available, with
`n = len(DMX_Errs) - sum(mask_idxs)` the number of fit bins and `C` the
matrix the provider returned, `dmxparse` computes the (squared) mean error
as `C.sum() / n²`; with no frozen bins the (squared) corrected
uncertainties are the diagonal of `m·C·m` with
`m = I - ones(n,n)/n`; and in particular for `C = v·I` every corrected
variance equals `v · (1 - 1/n)`. -/
theorem claim_C2_covariance_correction :
    (∀ (bins : List DMXParam) (f : List String → List (List ℚ))
        (r : DMXParseResult), dmxparse bins (some f) = some r →
        r.avg_dm_err_sq = matSum (f (requestedLabels bins)) /
          ((bins.length - (bins.map DMXParam.frozen).countP id : ℕ) : ℚ) ^ 2) ∧
    (∀ (bins : List DMXParam) (f : List String → List (List ℚ))
        (r : DMXParseResult), (∀ b ∈ bins, b.frozen = false) →
        dmxparse bins (some f) = some r →
        r.dmx_verr_sqs
          = (covDiag bins.length (f (requestedLabels bins))).map some) ∧
    (∀ (bins : List DMXParam) (f : List String → List (List ℚ))
        (r : DMXParseResult) (v : ℚ), bins ≠ [] →
        (∀ b ∈ bins, b.frozen = false) →
        f (requestedLabels bins) = scalarMat bins.length v →
        dmxparse bins (some f) = some r →
        ∀ i, i < bins.length →
          r.dmx_verr_sqs.getD i none
            = some (v * (1 - 1 / (bins.length : ℚ)))) := by
  refine ⟨?_, ?_, ?_⟩
  · intro bins f r hr
    obtain ⟨p, hfin, hbr⟩ := dmxparse_some_elim bins (some f) r hr
    have hcov : covStep bins (f (requestedLabels bins)) = some p := hbr
    obtain ⟨-, hp1⟩ := covStep_some_spec bins _ p hcov
    obtain ⟨-, -, -, havg⟩ := finishResult_spec bins p r hfin
    rw [havg, hp1]
  · intro bins f r hnf hr
    exact dmxparse_cov_no_frozen_verrs bins f r hnf hr
  · intro bins f r v hne hnf hC hr i hi
    have hverr := dmxparse_cov_no_frozen_verrs bins f r hnf hr
    rw [hC] at hverr
    have hn : 0 < bins.length := List.length_pos.2 hne
    rw [hverr,
      getD_map_lt (covDiag bins.length (scalarMat bins.length v)) some i
        (by rw [covDiag_length]; exact hi) 0 none,
      covDiag_getD _ hi, mcmEntry_scalarMat hn hi v]

end PintUtils

namespace PintUtils

theorem covDiag_two_scalarMat : covDiag 2 (scalarMat 2 1) = [1/2, 1/2] := by
  show (List.range 2).map (fun i => mcmEntry 2 (scalarMat 2 1) i i) = _
  rw [show List.range 2 = [0, 1] from rfl]
  simp only [List.map_cons, List.map_nil]
  rw [mcmEntry_scalarMat (by norm_num) (by norm_num) 1,
    mcmEntry_scalarMat (by norm_num) (by norm_num) 1]
  norm_num

theorem binsB_no_frozen : ∀ b ∈ binsB, b.frozen = false := by
  intro b hb
  simp only [binsB, List.mem_cons, List.not_mem_nil, or_false] at hb
  rcases hb with rfl | rfl <;> rfl

/-- Concrete run: two fit bins with the 2×2 identity covariance. -/
theorem dmxparse_binsB_resB : dmxparse binsB (some covB) = some resB := by
  have h1 : binsB ≠ [] := by simp [binsB]
  have hsq : matIsSquare binsB.length (covB (requestedLabels binsB)) = true := rfl
  have hcov := covStep_no_frozen binsB (covB (requestedLabels binsB))
    binsB_no_frozen hsq
  have hms : matSum (covB (requestedLabels binsB)) = 2 := by
    show matSum (scalarMat 2 1) = 2
    rw [show scalarMat 2 1 = [[1, 0], [0, 1]] by
      show (List.range 2).map _ = _
      rw [show List.range 2 = [0, 1] from rfl]
      norm_num]
    norm_num [matSum]
  have hdiag : covDiag binsB.length (covB (requestedLabels binsB))
      = [1/2, 1/2] := covDiag_two_scalarMat
  rw [dmxparse_cov_finish binsB covB _ h1 hcov]
  rw [hms, hdiag]
  norm_num [finishResult, binsB, resB, qMean]
  exact ⟨rfl, rfl⟩

/-- C2 witness: two fit bins with the 2×2 identity covariance; the
corrected variance of each bin is `1 · (1 - 1/2) = 1/2` and the squared
mean error is `C.sum()/n² = 2/4 = 1/2`. -/
theorem claim_C2_witness :
    binsB ≠ [] ∧
    dmxparse binsB (some covB) = some resB ∧
    resB.avg_dm_err_sq = matSum (covB (requestedLabels binsB)) /
      ((binsB.length - (binsB.map DMXParam.frozen).countP id : ℕ) : ℚ) ^ 2 ∧
    resB.dmx_verr_sqs
      = (covDiag binsB.length (covB (requestedLabels binsB))).map some ∧
    resB.dmx_verr_sqs.getD 0 none = some (1 * (1 - 1 / (binsB.length : ℚ))) ∧
    resB.dmx_verr_sqs.getD 0 none = some (1/2) := by
  have h1 : binsB ≠ [] := by simp [binsB]
  have hr := dmxparse_binsB_resB
  refine ⟨h1, hr, ?_, ?_, ?_, by norm_num [resB]⟩
  · exact claim_C2_covariance_correction.1 binsB covB resB hr
  · exact claim_C2_covariance_correction.2.1 binsB covB resB binsB_no_frozen hr
  · exact claim_C2_covariance_correction.2.2 binsB covB resB 1 h1
      binsB_no_frozen rfl hr 0 (by norm_num [binsB])

end PintUtils

namespace PintUtils

/-! ## Claim C10 — label request and dimension precondition -/

/-- C10: when a covariance matrix is present, `dmxparse` requests the label
submatrix for the names of all DMX bin parameters — frozen ones included —
sorted ascending (the request is a sorted permutation of the full name
list, so every bin's name, frozen or not, is in it); and the `n × n`
de-meaning products are well-defined only when the provider returned an
`n × n` matrix with `n` the number of non-frozen bins: every successful
run passed that dimension check. -/
theorem claim_C10_label_request_and_dimension :
    (∀ bins : List DMXParam,
        List.Perm (requestedLabels bins) (bins.map (fun b => "DMX_" ++ b.epoch))) ∧
    (∀ bins : List DMXParam, List.Sorted (· ≤ ·) (requestedLabels bins)) ∧
    (∀ (bins : List DMXParam) (b : DMXParam), b ∈ bins →
        ("DMX_" ++ b.epoch) ∈ requestedLabels bins) ∧
    (∀ (bins : List DMXParam) (f : List String → List (List ℚ))
        (r : DMXParseResult), dmxparse bins (some f) = some r →
        matIsSquare (bins.length - (bins.map DMXParam.frozen).countP id)
          (f (requestedLabels bins)) = true) := by
  have hperm : ∀ bins : List DMXParam,
      List.Perm (requestedLabels bins) (bins.map (fun b => "DMX_" ++ b.epoch)) :=
    fun bins => List.perm_insertionSort _ _
  refine ⟨hperm, ?_, ?_, ?_⟩
  · intro bins
    exact List.sorted_insertionSort _ _
  · intro bins b hb
    exact (hperm bins).mem_iff.2 (List.mem_map_of_mem _ hb)
  · intro bins f r hr
    obtain ⟨p, -, hbr⟩ := dmxparse_some_elim bins (some f) r hr
    have hcov : covStep bins (f (requestedLabels bins)) = some p := hbr
    exact (covStep_some_spec bins _ p hcov).1

/-- C10 witness: on the two-bin model the request is the sorted full name
list `["DMX_0001", "DMX_0002"]`, and the successful identity-covariance run
passed the 2×2 dimension check. -/
theorem claim_C10_witness :
    List.Perm (requestedLabels binsB) (binsB.map (fun b => "DMX_" ++ b.epoch)) ∧
    List.Sorted (· ≤ ·) (requestedLabels binsB) ∧
    dmxparse binsB (some covB) = some resB ∧
    matIsSquare (binsB.length - (binsB.map DMXParam.frozen).countP id)
      (covB (requestedLabels binsB)) = true ∧
    requestedLabels binsB = ["DMX_0001", "DMX_0002"] := by
  refine ⟨claim_C10_label_request_and_dimension.1 binsB,
    claim_C10_label_request_and_dimension.2.1 binsB,
    dmxparse_binsB_resB,
    claim_C10_label_request_and_dimension.2.2.2 binsB covB resB
      dmxparse_binsB_resB, ?_⟩
  show sortStr ["DMX_" ++ "0001", "DMX_" ++ "0002"] = _
  have h : ("DMX_0001" : String) ≤ "DMX_0002" := by
    rw [String.le_iff_toList_le]
    decide
  simp [sortStr, List.insertionSort, List.orderedInsert, h]

end PintUtils

namespace PintUtils

/-! ## Claim C3 — placeholder reinsertion -/

/-- `np.insert([1/2, 1/2], [0, 2], None)`: the insertion positions are the
full-list frozen indices `[0, 2]`, so the placeholders land at final
positions `0 + 0 = 0` and `2 + 1 = 3`. -/
theorem npInsertNone_bug_eval :
    npInsertNone [1/2, 1/2] [0, 2]
      = some [none, some (1/2), some (1/2), none] := by
  norm_num [npInsertNone, List.enum, List.enumFrom, List.range_succ]

/-- `np.insert([1/2, 1/2], [1, 3], None)`: position `3 + 1 = 4` is out of
bounds for the length-4 result (`IndexError`). -/
theorem npInsertNone_bug_crash : npInsertNone [1/2, 1/2] [1, 3] = none := by
  norm_num [npInsertNone, List.enum, List.enumFrom]

theorem covStep_binsC :
    covStep binsC (covB (requestedLabels binsC))
      = some (1/2, [none, some (1/2), some (1/2), none]) := by
  have hdiag : covDiag 2 (scalarMat 2 1) = [1/2, 1/2] := covDiag_two_scalarMat
  have hms : matSum (scalarMat 2 1) = 2 := by
    rw [show scalarMat 2 1 = [[1, 0], [0, 1]] by
      show (List.range 2).map _ = _
      rw [show List.range 2 = [0, 1] from rfl]
      norm_num]
    norm_num [matSum]
  unfold covStep
  dsimp only
  rw [show (binsC.map DMXParam.frozen) = [true, false, true, false] from rfl]
  rw [show List.countP id [true, false, true, false] = 2 from rfl]
  rw [show binsC.length - 2 = 2 from rfl]
  rw [if_pos (show matIsSquare 2 (covB (requestedLabels binsC)) = true from rfl)]
  rw [if_pos (show List.any [true, false, true, false] id = true from rfl)]
  rw [show frozenIdxs [true, false, true, false] = [0, 2] from rfl]
  show Option.map _ (npInsertNone (covDiag 2 (covB (requestedLabels binsC))) [0, 2]) = _
  rw [show covB (requestedLabels binsC) = scalarMat 2 1 from rfl, hdiag,
    npInsertNone_bug_eval, hms]
  norm_num

theorem covStep_binsD : covStep binsD (covB (requestedLabels binsD)) = none := by
  have hdiag : covDiag 2 (scalarMat 2 1) = [1/2, 1/2] := covDiag_two_scalarMat
  unfold covStep
  dsimp only
  rw [show (binsD.map DMXParam.frozen) = [false, true, false, true] from rfl]
  rw [show List.countP id [false, true, false, true] = 2 from rfl]
  rw [show binsD.length - 2 = 2 from rfl]
  rw [if_pos (show matIsSquare 2 (covB (requestedLabels binsD)) = true from rfl)]
  rw [if_pos (show List.any [false, true, false, true] id = true from rfl)]
  rw [show frozenIdxs [false, true, false, true] = [1, 3] from rfl]
  show Option.map _ (npInsertNone (covDiag 2 (covB (requestedLabels binsD))) [1, 3]) = _
  rw [show covB (requestedLabels binsD) = scalarMat 2 1 from rfl, hdiag,
    npInsertNone_bug_crash]
  rfl

/-- C3: the claim — the corrected-uncertainty array realigns 1:1 with the
full bin list, with a placeholder exactly at each frozen position — fails
on the code.  With frozen pattern `[T, F, T, F]` the call succeeds but the
placeholders land at positions 0 and 3 (position 2 is frozen yet carries a
value, position 3 is fit yet carries the placeholder), because
`np.insert(DMX_vErrs, np.where(mask_idxs)[0], None)` passes full-list
indices into the compressed fit-only array.  With frozen pattern
`[F, T, F, T]` the same line raises `IndexError` (modelled `none`). -/
theorem claim_C3_misalignment :
    dmxparse binsC (some covB) = some resC ∧
    resC.dmx_verr_sqs = [none, some (1/2), some (1/2), none] ∧
    (binsC.getD 2 default).frozen = true ∧
    resC.dmx_verr_sqs.getD 2 none ≠ none ∧
    (binsC.getD 3 default).frozen = false ∧
    resC.dmx_verr_sqs.getD 3 none = none ∧
    dmxparse binsD (some covB) = none := by
  have h1 : binsC ≠ [] := by simp [binsC]
  have hr : dmxparse binsC (some covB) = some resC := by
    rw [dmxparse_cov_finish binsC covB _ h1 covStep_binsC]
    norm_num [finishResult, binsC, resC, qMean]
    exact ⟨rfl, rfl, rfl, rfl⟩
  have hD : dmxparse binsD (some covB) = none := by
    unfold dmxparse
    rw [if_neg (by simp [binsD])]
    show (match dmxBranch binsD (some covB) with
          | none => none
          | some p => finishResult binsD p) = _
    rw [show dmxBranch binsD (some covB)
        = covStep binsD (covB (requestedLabels binsD)) from rfl, covStep_binsD]
  exact ⟨hr, rfl, rfl, by simp [resC], rfl, rfl, hD⟩

end PintUtils

namespace PintUtils

/-! ## Legacy segmenter evaluation on `toasC` -/

theorem dmx_ranges_old_toasC_eval :
    (dmx_ranges_old toasC 1000 (1/100) 15).2
      = [{ los := [0, 10], his := [1], min := 0, max := 10 }] := by
  norm_num [dmx_ranges_old, losOf, hisOf, uniqueSorted, sortQ, dedupAdj,
    roundTenth, roundHalfEven, legacyStep1, hiClose, rescueBest, rescueOne,
    dmxrange.init, listMin, listMax, List.insertionSort, List.orderedInsert,
    List.range_succ, toasC]
  norm_num [abs_of_nonneg, min_def, List.getD,
    rescueUpdate, listMin, listMax, max_def]

end PintUtils

namespace PintUtils

/-! ## Invariants of the legacy segmenter -/

/-- Every bin built by pass one satisfies any predicate that holds of the
padded constructor on a non-empty high-band list. -/
theorem legacyStep1_bins_forall (los his : List ℚ) (maxd : ℚ)
    (P : dmxrange → Prop)
    (hP : ∀ lo hc, hc ≠ [] → P (dmxrange.init [lo] hc)) :
    ∀ D ∈ (legacyStep1 los his maxd).1, P D := by
  unfold legacyStep1
  apply foldl_inv (fun acc : List dmxrange × List ℚ => ∀ D ∈ acc.1, P D)
  · intro D hD
    cases hD
  · intro s ii _ hs
    dsimp only
    by_cases hc : (hiClose los his maxd ii).isEmpty
    · rw [if_pos hc]
      exact hs
    · rw [if_neg hc]
      intro D hD
      rcases List.mem_append.1 hD with hD' | hD'
      · exact hs D hD'
      · rw [List.mem_singleton.1 hD']
        exact hP _ _ (by simpa [List.isEmpty_iff] using hc)

/-- The orphan-rescue step preserves any predicate that is stable under
appending the orphan to `los` and recomputing the extent without pad. -/
theorem rescueOne_forall (maxd : ℚ) (DMXs : List dmxrange) (bad : ℚ)
    (P : dmxrange → Prop)
    (hP : ∀ D, P D → P (rescueUpdate bad D))
    (h : ∀ D ∈ DMXs, P D) : ∀ D ∈ rescueOne maxd DMXs bad, P D := by
  unfold rescueOne
  dsimp only
  by_cases hb : (rescueBest maxd DMXs bad).1 < maxd
  · rw [if_pos hb]
    by_cases hlt : (rescueBest maxd DMXs bad).2 < DMXs.length
    · intro D hD
      rcases List.mem_or_eq_of_mem_set hD with hD' | rfl
      · exact h D hD'
      · have hget : DMXs.getD (rescueBest maxd DMXs bad).2 default
            = DMXs[(rescueBest maxd DMXs bad).2] := by
          rw [List.getD_eq_getElem?_getD, List.getElem?_eq_getElem hlt]
          rfl
        rw [hget]
        exact hP _ (h _ (List.getElem_mem hlt))
    · rw [List.set_eq_of_length_le (le_of_not_lt hlt)]
      exact h
  · rw [if_neg hb]
    exact h

/-- Every bin emitted by `dmx_ranges_old` satisfies any predicate that
holds of the padded constructor and is stable under the rescue update. -/
theorem dmx_ranges_old_bins_forall (toas : List TOA)
    (divide offset maxd : ℚ) (P : dmxrange → Prop)
    (hinit : ∀ lo hc, hc ≠ [] → P (dmxrange.init [lo] hc))
    (hup : ∀ bad D, P D → P (rescueUpdate bad D)) :
    ∀ D ∈ (dmx_ranges_old toas divide offset maxd).2, P D := by
  unfold dmx_ranges_old
  dsimp only
  apply foldl_inv (fun DMXs => ∀ D ∈ DMXs, P D)
  · exact legacyStep1_bins_forall _ _ _ P hinit
  · intro s a _ hs
    exact rescueOne_forall maxd s a P (hup a) hs

/-! ## Claim C7 — legacy both-band invariant -/

/-- C7: every bin emitted by the legacy segmenter has at least one low-band
and at least one high-band time; no single-band bin survives to the output
(pass one only creates bins with a non-empty surviving high-band set, and
the rescue pass only ever extends `los`). -/
theorem claim_C7_legacy_both_bands (toas : List TOA)
    (divide offset maxd : ℚ) (D : dmxrange)
    (hD : D ∈ (dmx_ranges_old toas divide offset maxd).2) :
    D.los ≠ [] ∧ D.his ≠ [] := by
  refine dmx_ranges_old_bins_forall toas divide offset maxd
    (fun D => D.los ≠ [] ∧ D.his ≠ []) ?_ ?_ D hD
  · intro lo hc hne
    exact ⟨by simp [dmxrange.init], by simpa [dmxrange.init] using hne⟩
  · intro bad D hP
    exact ⟨by simp [rescueUpdate], hP.2⟩

/-- C7 witness: on `toasC` the single emitted (rescued) bin has low-band
times `[0, 10]` and high-band times `[1]`, both non-empty. -/
theorem claim_C7_witness :
    ({ los := [0, 10], his := [1], min := 0, max := 10 } : dmxrange)
        ∈ (dmx_ranges_old toasC 1000 (1/100) 15).2 ∧
    ([0, 10] : List ℚ) ≠ [] ∧ ([1] : List ℚ) ≠ [] := by
  have hm : ({ los := [0, 10], his := [1], min := 0, max := 10 } : dmxrange)
      ∈ (dmx_ranges_old toasC 1000 (1/100) 15).2 := by
    rw [dmx_ranges_old_toasC_eval]
    exact List.mem_singleton_self _
  exact ⟨hm, claim_C7_legacy_both_bands toasC 1000 (1/100) 15 _ hm⟩

/-! ## Claim C6 — legacy pad invariant -/

/-- C6 (counterexample): the claim requires every emitted bin, including
rescued ones, to satisfy `min = min(los ∪ his) - 0.001`; the rescued bin
of `toasC` has members `los = [0, 10]`, `his = [1]` and `min = 0`, whereas
the claim demands `-0.001`. -/
theorem claim_C6_counterexample :
    (dmx_ranges_old toasC 1000 (1/100) 15).2
      = [{ los := [0, 10], his := [1], min := 0, max := 10 }] ∧
    listMin ([0, 10] ++ [1]) - 1/1000 = -(1/1000 : ℚ) ∧
    (0 : ℚ) ≠ -(1/1000 : ℚ) := by
  refine ⟨dmx_ranges_old_toasC_eval, ?_, by norm_num⟩
  norm_num [listMin, min_def]

/-- C6 (amended): every bin emitted by the legacy segmenter either carries
the padded extent `[min(los ∪ his) - 0.001, max(los ∪ his) + 0.001]` set by
`dmxrange.__init__` (bins never touched by the rescue pass), or the
unpadded extent `[min(los ∪ his), max(los ∪ his)]` (bins whose extent the
orphan-rescue pass recomputed, which drops the pad). -/
theorem claim_C6_legacy_extent_invariant (toas : List TOA)
    (divide offset maxd : ℚ) (D : dmxrange)
    (hD : D ∈ (dmx_ranges_old toas divide offset maxd).2) :
    (D.min = listMin (D.los ++ D.his) - 1/1000 ∧
     D.max = listMax (D.los ++ D.his) + 1/1000) ∨
    (D.min = listMin (D.los ++ D.his) ∧
     D.max = listMax (D.los ++ D.his)) := by
  refine dmx_ranges_old_bins_forall toas divide offset maxd
    (fun D => (D.min = listMin (D.los ++ D.his) - 1/1000 ∧
               D.max = listMax (D.los ++ D.his) + 1/1000) ∨
              (D.min = listMin (D.los ++ D.his) ∧
               D.max = listMax (D.los ++ D.his))) ?_ ?_ D hD
  · intro lo hc _
    left
    exact ⟨rfl, rfl⟩
  · intro bad D _
    right
    exact ⟨rfl, rfl⟩

/-- C6 witness: the rescued bin of `toasC` satisfies the amended invariant
through its second (unpadded) alternative: `min = min([0,10,1]) = 0` and
`max = max([0,10,1]) = 10`. -/
theorem claim_C6_witness :
    ({ los := [0, 10], his := [1], min := 0, max := 10 } : dmxrange)
        ∈ (dmx_ranges_old toasC 1000 (1/100) 15).2 ∧
    (((0 : ℚ) = listMin ([0, 10] ++ [1]) - 1/1000 ∧
      (10 : ℚ) = listMax ([0, 10] ++ [1]) + 1/1000) ∨
     ((0 : ℚ) = listMin ([0, 10] ++ [1]) ∧
      (10 : ℚ) = listMax ([0, 10] ++ [1]))) := by
  have hm : ({ los := [0, 10], his := [1], min := 0, max := 10 } : dmxrange)
      ∈ (dmx_ranges_old toasC 1000 (1/100) 15).2 := by
    rw [dmx_ranges_old_toasC_eval]
    exact List.mem_singleton_self _
  exact ⟨hm, claim_C6_legacy_extent_invariant toasC 1000 (1/100) 15 _ hm⟩

end PintUtils

namespace PintUtils

/-! ## Claim C5 — windowed batch acceptance -/

/-- C5 (counterexample): the claim accepts a batch containing at least one
observation below the divide and at least one at-or-above it; `toasB`'s
single batch holds frequencies 500 (below) and exactly 1000 (at the
divide), yet the code — which tests `np.any(binfreqs > divide_freq)`
strictly — discards it and emits no bin. -/
theorem claim_C5_counterexample :
    dmx_ranges toasB 1000 15 = some ([false, false], []) ∧
    (⟨0, 500⟩ : TOA) ∈ winBatch toasB (0 - 1/1000) 15 0 ∧
    (500 : ℚ) < 1000 ∧
    (⟨1, 1000⟩ : TOA) ∈ winBatch toasB (0 - 1/1000) 15 0 ∧
    (1000 : ℚ) ≥ 1000 := by
  refine ⟨?_, ?_, by norm_num, ?_, le_refl _⟩
  · norm_num [dmx_ranges, winLoop, winStart, winRemaining, winBatch,
      winAccept, winBin, dmxrange.init, listMin, listMax, toasB]
  · norm_num [winBatch, toasB]
  · norm_num [winBatch, toasB]

/-- C5 (amended): in each windowed iteration with a non-empty remainder,
the batch is exactly the observations with time in
`(prev_end, start + binwidth]`; it yields a bin iff it contains at least
one observation strictly below the frequency divide and at least one
strictly above it; otherwise it is discarded — and in both cases the
cursor advances to the batch's maximum observation time. -/
theorem claim_C5_windowed_batch_acceptance (divide width : ℚ)
    (toas : List TOA) (fuel : ℕ) (prev : ℚ) (acc : List dmxrange) (start : ℚ)
    (hs : winStart toas prev = some start)
    (hne : winBatch toas prev width start ≠ []) :
    winLoop divide width toas (fuel + 1) prev acc =
      winLoop divide width toas fuel
        (listMax ((winBatch toas prev width start).map TOA.mjd))
        (if (∃ x ∈ winBatch toas prev width start, x.freq < divide) ∧
            (∃ x ∈ winBatch toas prev width start, divide < x.freq)
         then acc ++ [winBin divide (winBatch toas prev width start)]
         else acc) ∧
    winBatch toas prev width start
      = toas.filter (fun x => decide (prev < x.mjd ∧ x.mjd ≤ start + width)) := by
  constructor
  · rw [winLoop, hs]
    dsimp only
    rw [if_neg (by simpa using hne)]
    have hiff : winAccept divide (winBatch toas prev width start) = true
        ↔ ((∃ x ∈ winBatch toas prev width start, x.freq < divide) ∧
           (∃ x ∈ winBatch toas prev width start, divide < x.freq)) := by
      simp [winAccept, List.any_eq_true]
    rw [if_congr hiff rfl rfl]
  · simp [winBatch, Bool.decide_and]

/-- C5 witness: the first iteration on `toasA` (frequencies 500 and 1500,
divide 1000) accepts its two-element batch. -/
theorem claim_C5_witness :
    winStart toasA (0 - 1/1000) = some 0 ∧
    winBatch toasA (0 - 1/1000) 15 0 ≠ [] ∧
    (winLoop 1000 15 toasA 2 (0 - 1/1000) [] =
      winLoop 1000 15 toasA 1
        (listMax ((winBatch toasA (0 - 1/1000) 15 0).map TOA.mjd))
        (if (∃ x ∈ winBatch toasA (0 - 1/1000) 15 0, x.freq < 1000) ∧
            (∃ x ∈ winBatch toasA (0 - 1/1000) 15 0, 1000 < x.freq)
         then [] ++ [winBin 1000 (winBatch toasA (0 - 1/1000) 15 0)]
         else []) ∧
     winBatch toasA (0 - 1/1000) 15 0
       = toasA.filter (fun x => decide ((0 - 1/1000) < x.mjd ∧ x.mjd ≤ 0 + 15))) := by
  have h1 : winStart toasA (0 - 1/1000) = some 0 := by
    norm_num [winStart, winRemaining, toasA]
  have h2 : winBatch toasA (0 - 1/1000) 15 0 ≠ [] := by
    norm_num [winBatch, toasA]
    exact List.cons_ne_nil _ _
  exact ⟨h1, h2,
    claim_C5_windowed_batch_acceptance 1000 15 toasA 1 (0 - 1/1000) [] 0 h1 h2⟩

end PintUtils

namespace PintUtils

/-! ## Claim C4 — windowed bin extent and mask -/

/-- C4 (counterexample): the claim says an accepted windowed bin's `min`
equals the earliest observation time of its batch with no pad; on `toasA`
the batch's earliest time is `0` but the bin's `min` is `-0.001`, because
the windowed segmenter builds its bins through `dmxrange.__init__`, which
pads by `0.001` day on each side. -/
theorem claim_C4_counterexample :
    (dmx_ranges toasA 1000 15).map (fun pr => pr.2.map dmxrange.min)
      = some [-(1/1000)] ∧
    listMin ((winBatch toasA (0 - 1/1000) 15 0).map TOA.mjd) = 0 ∧
    (-(1/1000) : ℚ) ≠ 0 := by
  refine ⟨?_, ?_, by norm_num⟩
  · norm_num [dmx_ranges, winLoop, winStart, winRemaining, winBatch,
      winAccept, winBin, dmxrange.init, listMin, listMax, toasA, min_def,
      max_def]
  · norm_num [winBatch, toasA, listMin, min_def]

/-- C4 (amended): an accepted windowed bin's extent is the batch extent
padded by `0.001` day on each side (`min` is the earliest batch time minus
`0.001`, `max` the latest plus `0.001`), and the mask marks an observation
true iff its time lies in the inclusive interval `[bin.min, bin.max]` of
some accepted bin, with no further padding applied at mask time. -/
theorem claim_C4_windowed_extent_and_mask :
    (∀ (divide : ℚ) (batch : List TOA), batch ≠ [] →
        winAccept divide batch = true →
        (winBin divide batch).min = listMin (batch.map TOA.mjd) - 1/1000 ∧
        (winBin divide batch).max = listMax (batch.map TOA.mjd) + 1/1000) ∧
    (∀ (toas : List TOA) (divide width : ℚ) (mask : List Bool)
        (bins : List dmxrange),
        dmx_ranges toas divide width = some (mask, bins) →
        mask.length = toas.length ∧
        ∀ i, i < toas.length →
          (mask.getD i false = true ↔
            ∃ b ∈ bins, b.min ≤ (toas.getD i default).mjd ∧
              (toas.getD i default).mjd ≤ b.max)) := by
  constructor
  · intro divide batch hne _
    have hmem : ∀ x,
        x ∈ (((batch.filter (fun t => decide (t.freq < divide))).map TOA.mjd)
          ++ ((batch.filter (fun t => decide (t.freq ≥ divide))).map TOA.mjd))
        ↔ x ∈ batch.map TOA.mjd := by
      intro x
      simp only [List.mem_append, List.mem_map, List.mem_filter,
        decide_eq_true_eq]
      constructor
      · rintro (⟨a, ⟨ha, -⟩, rfl⟩ | ⟨a, ⟨ha, -⟩, rfl⟩) <;> exact ⟨a, ha, rfl⟩
      · rintro ⟨a, ha, rfl⟩
        rcases lt_or_ge a.freq divide with hf | hf
        · exact Or.inl ⟨a, ⟨ha, hf⟩, rfl⟩
        · exact Or.inr ⟨a, ⟨ha, hf⟩, rfl⟩
    have hne' : batch.map TOA.mjd ≠ [] := by
      simpa using hne
    constructor
    · show listMin _ - 1/1000 = _
      rw [listMin_congr hne' hmem]
    · show listMax _ + 1/1000 = _
      rw [listMax_congr hne' hmem]
  · intro toas divide width mask bins hr
    cases toas with
    | nil => cases hr
    | cons t ts =>
      unfold dmx_ranges at hr
      dsimp only at hr
      rw [Option.some_inj] at hr
      cases hr
      constructor
      · simp
      · intro i hi
        rw [getD_map_lt (t :: ts) _ i hi default false]
        simp [List.any_eq_true]

/-- C4 witness: the accepted bin on `toasA` spans `[-0.001, 1.001]` around
its batch extent `[0, 1]`, and the mask marks the first observation true
exactly because it lies inside that inclusive interval. -/
theorem claim_C4_witness :
    winBatch toasA (0 - 1/1000) 15 0 ≠ [] ∧
    winAccept 1000 (winBatch toasA (0 - 1/1000) 15 0) = true ∧
    ((winBin 1000 (winBatch toasA (0 - 1/1000) 15 0)).min
        = listMin ((winBatch toasA (0 - 1/1000) 15 0).map TOA.mjd) - 1/1000 ∧
     (winBin 1000 (winBatch toasA (0 - 1/1000) 15 0)).max
        = listMax ((winBatch toasA (0 - 1/1000) 15 0).map TOA.mjd) + 1/1000) ∧
    dmx_ranges toasA 1000 15 = some ([true, true],
      [{ los := [0], his := [1], min := -(1/1000), max := 1 + 1/1000 }]) ∧
    (([true, true] : List Bool).length = toasA.length ∧
     ∀ i, i < toasA.length →
       (([true, true] : List Bool).getD i false = true ↔
         ∃ b ∈ [({ los := [0], his := [1], min := -(1/1000),
                   max := 1 + 1/1000 } : dmxrange)],
           b.min ≤ (toasA.getD i default).mjd ∧
             (toasA.getD i default).mjd ≤ b.max)) := by
  have h2 : winBatch toasA (0 - 1/1000) 15 0 ≠ [] := by
    norm_num [winBatch, toasA]
    exact List.cons_ne_nil _ _
  have hacc : winAccept 1000 (winBatch toasA (0 - 1/1000) 15 0) = true := by
    norm_num [winAccept, winBatch, toasA]
  have hr : dmx_ranges toasA 1000 15 = some ([true, true],
      [{ los := [0], his := [1], min := -(1/1000), max := 1 + 1/1000 }]) := by
    norm_num [dmx_ranges, winLoop, winStart, winRemaining, winBatch,
      winAccept, winBin, dmxrange.init, listMin, listMax, toasA, min_def,
      max_def]
  exact ⟨h2, hacc,
    claim_C4_windowed_extent_and_mask.1 1000 _ h2 hacc,
    hr,
    claim_C4_windowed_extent_and_mask.2 toasA 1000 15 _ _ hr⟩

end PintUtils
